import Mathlib

/-!
Verification development for the SHT45 live-plotting tool
(`SHT_plotter_live.py`).  The Python source is shallowly embedded below:
strings become `List Char`, Python floats become `ℚ` (every numeric literal
and arithmetic operation exercised by the claims is exact in both
representations), Python `dict`/object state becomes explicit state records,
and every fallible operation returns `Option`.
-/

namespace SHT

/-- The whitespace characters stripped by Python's `str.strip()` and matched
by the regex class `\s` (ASCII range; the tool's log lines are ASCII). -/
def isPySpace (c : Char) : Bool :=
  c == ' ' || c == '\t' || c == '\n' || c == '\r' ||
  c == Char.ofNat 11 || c == Char.ofNat 12

/-- Python `str.strip()`: drop leading and trailing whitespace. -/
def pyStrip (cs : List Char) : List Char :=
  ((cs.dropWhile isPySpace).reverse.dropWhile isPySpace).reverse

/-- Python `s.split(",")`: split on every comma, keeping empty fields. -/
def splitComma : List Char → List (List Char)
  | [] => [[]]
  | c :: rest =>
    if c = ',' then [] :: splitComma rest
    else
      match splitComma rest with
      | [] => [[c]]
      | l :: ls => (c :: l) :: ls

/-- Numeric value of a string of decimal digits (Python `int` on digits). -/
def natOfDigits (cs : List Char) : ℕ :=
  cs.foldl (fun acc c => 10 * acc + (c.toNat - 48)) 0

/-- Leading run of decimal digits and the remainder of the input. -/
def spanDigits (cs : List Char) : List Char × List Char :=
  (cs.takeWhile Char.isDigit, cs.dropWhile Char.isDigit)

/-- Python `float()` on an already-stripped string, restricted to finite
decimal literals: optional sign, integer and/or fractional digits, optional
exponent.  (`nan`/`inf` and digit-group underscores are not modelled; in
`parse_log_line_abs_seconds` such fields lead to a rejected line either
way.) -/
def pyFloat (cs : List Char) : Option ℚ :=
  let (sgn, cs) : ℚ × List Char :=
    match cs with
    | '-' :: r => (-1, r)
    | '+' :: r => (1, r)
    | _ => (1, cs)
  let (ip, cs) := spanDigits cs
  let (fp, cs) : List Char × List Char :=
    match cs with
    | '.' :: r => spanDigits r
    | _ => ([], cs)
  if ip = [] ∧ fp = [] then none
  else
    let mantissa : ℚ := (natOfDigits ip : ℚ) + (natOfDigits fp : ℚ) / (10 ^ fp.length : ℕ)
    match cs with
    | [] => some (sgn * mantissa)
    | e :: r =>
      if e = 'e' ∨ e = 'E' then
        let (esgn, r) : Bool × List Char :=
          match r with
          | '-' :: r2 => (true, r2)
          | '+' :: r2 => (false, r2)
          | _ => (false, r)
        let (ed, r) := spanDigits r
        if ed = [] ∨ r ≠ [] then none
        else
          let p : ℚ := (10 : ℚ) ^ natOfDigits ed
          some (sgn * (if esgn then mantissa / p else mantissa * p))
      else none

/-- Python `pat in s`: `pat` occurs as a contiguous substring of `s`. -/
def containsSeq (pat : List Char) : List Char → Bool
  | [] => pat.isEmpty
  | c :: rest => pat.isPrefixOf (c :: rest) || containsSeq pat rest

/-- An accepted sample `(t_abs_sec, sid, temp, hum)` as returned by
`parse_log_line_abs_seconds`. -/
abbrev Sample := ℚ × ℕ × ℚ × ℚ

/-! ### Per-channel last-good state (`DataMonitor._last_good_temp/_hum`)

The two Python dicts `{1: None, 2: None}` are modelled as four `Option ℚ`
fields; they live on the single `DataMonitor` object. -/

structure LastGood where
  t1 : Option ℚ
  t2 : Option ℚ
  h1 : Option ℚ
  h2 : Option ℚ
deriving DecidableEq, Repr

/-- Fresh last-good state, as set in `DataMonitor.__init__`/`reset_main`. -/
def lastGoodInit : LastGood := ⟨none, none, none, none⟩

/-- `self._last_good_temp[sid]` (the parser only ever uses `sid ∈ {1, 2}`). -/
def LastGood.temp (lg : LastGood) (sid : ℕ) : Option ℚ :=
  if sid = 1 then lg.t1 else lg.t2

/-- `self._last_good_hum[sid]`. -/
def LastGood.hum (lg : LastGood) (sid : ℕ) : Option ℚ :=
  if sid = 1 then lg.h1 else lg.h2

/-- The two assignments `self._last_good_temp[sid] = temp;
self._last_good_hum[sid] = hum` performed on acceptance. -/
def LastGood.set (lg : LastGood) (sid : ℕ) (temp hum : ℚ) : LastGood :=
  if sid = 1 then { lg with t1 := some temp, h1 := some hum }
  else { lg with t2 := some temp, h2 := some hum }

/-- `DataMonitor._valid_ranges`: `TEMP_MIN_C <= temp <= TEMP_MAX_C` and
`HUM_MIN_PCT <= hum <= HUM_MAX_PCT` with the configured constants. -/
def valid_ranges (temp hum : ℚ) : Bool :=
  decide (-40 ≤ temp) && decide (temp ≤ 125) && decide (0 ≤ hum) && decide (hum ≤ 100)

/-- `DataMonitor._valid_step`: accept unconditionally when no previous value
exists for the channel, otherwise require `|Δtemp| ≤ MAX_TEMP_STEP_C` and
`|Δhum| ≤ MAX_HUM_STEP_PCT`. -/
def valid_step (lg : LastGood) (sid : ℕ) (temp hum : ℚ) : Bool :=
  match lg.temp sid, lg.hum sid with
  | some lt, some lh => decide (|temp - lt| ≤ 5) && decide (|hum - lh| ≤ 20)
  | _, _ => true

/-- The shared validate-and-update tail of both accepting branches of
`parse_log_line_abs_seconds` (the source repeats these lines verbatim in the
delimited branch and in the regex branch). -/
def acceptSample (lg : LastGood) (t_abs : ℚ) (sid : ℕ) (temp hum : ℚ) :
    Option Sample × LastGood :=
  if valid_ranges temp hum then
    if valid_step lg sid temp hum then
      (some (t_abs, sid, temp, hum), lg.set sid temp hum)
    else (none, lg)
  else (none, lg)

/-- `sensor_txt.lower().startswith("sensor")`. -/
def startsWithSensor (cs : List Char) : Bool :=
  List.isPrefixOf ['s', 'e', 'n', 's', 'o', 'r'] (cs.map Char.toLower)

/-- `sensor_txt.replace(" ", "").endswith("1")`. -/
def endsInOne (cs : List Char) : Bool :=
  (cs.filter (fun c => c != ' ')).getLast? == some '1'

/-- Field extraction of the delimited branch: for 5 fields
`t = float(parts[1])`, label `parts[2]`, `temp = float(parts[3])`,
`hum = float(parts[4])`; for 4 fields `t = float(parts[0])`, label
`parts[1]`, `temp = float(parts[2])`, `hum = float(parts[3])`.  A failing
`float()` raises in the source, caught by `except: pass`; here it yields
`none`, and other arities yield `none` as well (the source's
`len(parts) in (4, 5)` guard). -/
def delimitedFields (parts : List (List Char)) :
    Option (ℚ × List Char × ℚ × ℚ) :=
  match parts with
  | [_p0, p1, p2, p3, p4] => do
    let t ← pyFloat p1
    let temp ← pyFloat p3
    let hum ← pyFloat p4
    pure (t, p2, temp, hum)
  | [p0, p1, p2, p3] => do
    let t ← pyFloat p0
    let temp ← pyFloat p2
    let hum ← pyFloat p3
    pure (t, p1, temp, hum)
  | _ => none

/-- The tail of the delimited branch once the numeric fields have parsed:
`if sensor_txt.lower().startswith("sensor"): sid = 1 if ... else 2; ...`.
`none` means the `if` failed and control fell through to the regex
attempt. -/
def delimitedLabelStep (lg : LastGood) (t_abs : ℚ) (sensor_txt : List Char)
    (temp hum : ℚ) : Option (Option Sample × LastGood) :=
  if startsWithSensor sensor_txt then
    let sid := if endsInOne sensor_txt then 1 else 2
    some (acceptSample lg t_abs sid temp hum)
  else none

/-- The comma-delimited 4/5-field branch of `parse_log_line_abs_seconds`.
`none` means the branch fell through to the regex attempt (wrong arity, a
`float()` exception, or a label that does not start with "sensor");
`some r` means the branch returned `r` to the caller. -/
def delimitedBranch (lg : LastGood) (s : List Char) :
    Option (Option Sample × LastGood) :=
  let parts := (splitComma s).map pyStrip
  match delimitedFields parts with
  | none => none
  | some (t_abs, sensor_txt, temp, hum) =>
    delimitedLabelStep lg t_abs sensor_txt temp hum

/-! ### The free-text pattern `LINE_RE`

`^\s*(?P<pc>\S+)\s+(?P<m>\d+):(?P<s>\d+)\.(?P<ms>\d+)\s*,\s*`
`(?P<sensor>Sensor\s*[12])\s*,\s*(?P<temp>-?\d+(?:\.\d+)?)\s*,\s*`
`(?P<rh>-?\d+(?:\.\d+)?)\s*$`

The pattern is deterministic on every input (each `\S+`/`\s+`/`\d+` run is
forced by the following literal), so it is embedded as a sequential matcher
returning the named groups. -/

/-- Consume one expected character. -/
def expectChar (c : Char) : List Char → Option (List Char)
  | x :: r => if x = c then some r else none
  | [] => none

/-- Consume an expected literal sequence. -/
def expectSeq (pat cs : List Char) : Option (List Char) :=
  if pat.isPrefixOf cs then some (cs.drop pat.length) else none

/-- Match `-?\d+(?:\.\d+)?` and return its numeric value (the source
applies `float()` to the matched group). -/
def matchNumber (cs : List Char) : Option (ℚ × List Char) :=
  let (neg, cs) : Bool × List Char :=
    match cs with
    | '-' :: r => (true, r)
    | _ => (false, cs)
  let (ip, cs) := spanDigits cs
  if ip = [] then none
  else
    let (fp, cs) : List Char × List Char :=
      match cs with
      | '.' :: r =>
        let (d, r2) := spanDigits r
        if d = [] then ([], '.' :: r) else (d, r2)
      | _ => ([], cs)
    let v : ℚ := (natOfDigits ip : ℚ) + (natOfDigits fp : ℚ) / (10 ^ fp.length : ℕ)
    some (if neg then -v else v, cs)

/-- `LINE_RE.match(s)`: on success returns the digit groups `m`, `s`, `ms`,
the `sensor` group text (`Sensor`, optional spaces, then `1` or `2`) and the
numeric values of the `temp` and `rh` groups. -/
def lineReMatch (s0 : List Char) :
    Option (List Char × List Char × List Char × List Char × ℚ × ℚ) := do
  let cs := s0.dropWhile isPySpace
  let pc := cs.takeWhile (fun c => !isPySpace c)
  let cs := cs.dropWhile (fun c => !isPySpace c)
  if pc = [] then none else
  let ws := cs.takeWhile isPySpace
  if ws = [] then none else
  let cs := cs.dropWhile isPySpace
  let (mD, cs) := spanDigits cs
  if mD = [] then none else
  let cs ← expectChar ':' cs
  let (sD, cs) := spanDigits cs
  if sD = [] then none else
  let cs ← expectChar '.' cs
  let (msD, cs) := spanDigits cs
  if msD = [] then none else
  let cs := cs.dropWhile isPySpace
  let cs ← expectChar ',' cs
  let cs := cs.dropWhile isPySpace
  let cs ← expectSeq ['S', 'e', 'n', 's', 'o', 'r'] cs
  let innerWs := cs.takeWhile isPySpace
  let cs := cs.dropWhile isPySpace
  match cs with
  | d :: cs =>
    if d = '1' ∨ d = '2' then
      let sensorTxt := ['S', 'e', 'n', 's', 'o', 'r'] ++ innerWs ++ [d]
      let cs := cs.dropWhile isPySpace
      let cs ← expectChar ',' cs
      let cs := cs.dropWhile isPySpace
      let (temp, cs) ← matchNumber cs
      let cs := cs.dropWhile isPySpace
      let cs ← expectChar ',' cs
      let cs := cs.dropWhile isPySpace
      let (rh, cs) ← matchNumber cs
      let cs := cs.dropWhile isPySpace
      if cs = [] then some (mD, sD, msD, sensorTxt, temp, rh) else none
    else none
  | [] => none

/-- `to_seconds(m, s, ms)` = `int(m) * 60.0 + int(s) + int(ms) / 1000.0`
applied to the matched digit groups. -/
def to_seconds (mD sD msD : List Char) : ℚ :=
  (natOfDigits mD : ℚ) * 60 + (natOfDigits sD : ℚ) + (natOfDigits msD : ℚ) / 1000

/-- The header line recognised and skipped by the parser. -/
def headerChars : List Char := "TS,Sensor,TempC,RH".data

/-- `DataMonitor.parse_log_line_abs_seconds(self, s)`.  Returns the parsed
sample (or `None`) together with the updated shared last-good state. -/
def parse_log_line_abs_seconds (lg : LastGood) (s : List Char) :
    Option Sample × LastGood :=
  if s = [] then (none, lg)
  else if containsSeq headerChars s then (none, lg)
  else
    match delimitedBranch lg s with
    | some r => r
    | none =>
      match lineReMatch s with
      | none => (none, lg)
      | some (mD, sD, msD, sensorTxt, temp, hum) =>
        let t_abs := to_seconds mD sD msD
        let sid := if endsInOne sensorTxt then 1 else 2
        acceptSample lg t_abs sid temp hum

/-! ### Stream buffers (`StreamBuffers`)

Each of the six `deque(maxlen=...)` objects is a bounded FIFO list; the
newest element is at the tail.  `dequeAppend` is `deque.append`: when the
deque already holds `cap` elements the oldest (head) element is discarded. -/

/-- `collections.deque(maxlen=cap).append(x)`. -/
def dequeAppend (cap : ℕ) (xs : List ℚ) (x : ℚ) : List ℚ :=
  if xs.length < cap then xs ++ [x] else xs.tail ++ [x]

/-- `MAX_POINTS` from the configuration block. -/
def MAX_POINTS : ℕ := 250000

/-- `StreamBuffers`: two channels, each with parallel time / temperature /
humidity deques of capacity `maxlen`. -/
structure StreamBuffers where
  maxlen : ℕ
  t1 : List ℚ
  T1 : List ℚ
  H1 : List ℚ
  t2 : List ℚ
  T2 : List ℚ
  H2 : List ℚ
deriving DecidableEq, Repr

/-- `StreamBuffers.__init__(maxlen)`. -/
def StreamBuffers.init (maxlen : ℕ := MAX_POINTS) : StreamBuffers :=
  ⟨maxlen, [], [], [], [], [], []⟩

/-- `StreamBuffers.clear`. -/
def StreamBuffers.clear (b : StreamBuffers) : StreamBuffers :=
  { b with t1 := [], T1 := [], H1 := [], t2 := [], T2 := [], H2 := [] }

/-- `StreamBuffers.push(t, sid, temp, hum)`. -/
def StreamBuffers.push (b : StreamBuffers) (t : ℚ) (sid : ℕ) (temp hum : ℚ) :
    StreamBuffers :=
  if sid = 1 then
    { b with t1 := dequeAppend b.maxlen b.t1 t,
             T1 := dequeAppend b.maxlen b.T1 temp,
             H1 := dequeAppend b.maxlen b.H1 hum }
  else
    { b with t2 := dequeAppend b.maxlen b.t2 t,
             T2 := dequeAppend b.maxlen b.T2 temp,
             H2 := dequeAppend b.maxlen b.H2 hum }

/-- One `push` call described abstractly, for reasoning about arbitrary
sequences of pushes into a `StreamBuffers`. -/
structure PushOp where
  t : ℚ
  sid : ℕ
  temp : ℚ
  hum : ℚ

/-- Apply a sequence of `push` calls in order. -/
def applyPushes (b : StreamBuffers) (ops : List PushOp) : StreamBuffers :=
  ops.foldl (fun b op => b.push op.t op.sid op.temp op.hum) b

/-! ### Chunk handling of the tailer loops

Lines 275–287 of `read_loop_main` (and the identical block of the overlay
tailer `_tail`): prefix the carry, split into lines keeping the
terminators, retain an unterminated final fragment as the new carry, strip
and parse every complete line, and collect the accepted samples. -/

/-- Helper for `splitlinesKeepends`: `acc` holds the current (reversed)
not-yet-terminated line. -/
def splitlinesAux (acc : List Char) : List Char → List (List Char)
  | [] => if acc = [] then [] else [acc.reverse]
  | '\r' :: '\n' :: rest => (acc.reverse ++ ['\r', '\n']) :: splitlinesAux [] rest
  | '\n' :: rest => (acc.reverse ++ ['\n']) :: splitlinesAux [] rest
  | '\r' :: rest => (acc.reverse ++ ['\r']) :: splitlinesAux [] rest
  | c :: rest => splitlinesAux (c :: acc) rest

/-- Python `str.splitlines(keepends=True)`, restricted to the `\n`, `\r`
and `\r\n` terminators that occur in the tool's log files. -/
def splitlinesKeepends (cs : List Char) : List (List Char) :=
  splitlinesAux [] cs

/-- `line.endswith("\n") or line.endswith("\r")`. -/
def endsWithTerminator (cs : List Char) : Bool :=
  cs.getLast? == some '\n' || cs.getLast? == some '\r'

/-- One `if chunk:` block of a tailer loop: returns the accepted samples in
order, the updated shared last-good state and the new carry. -/
def handleChunk (lg : LastGood) (carry chunk : List Char) :
    List Sample × LastGood × List Char :=
  if chunk = [] then ([], lg, carry)
  else
    let full := carry ++ chunk
    let lines := splitlinesKeepends full
    let (lines, newCarry) : List (List Char) × List Char :=
      match lines.getLast? with
      | some last =>
        if !endsWithTerminator last then (lines.dropLast, last) else (lines, [])
      | none => (lines, [])
    let (samples, lg') := lines.foldl
      (fun acc ln =>
        match parse_log_line_abs_seconds acc.2 (pyStrip ln) with
        | (some smp, lg2) => (acc.1 ++ [smp], lg2)
        | (none, lg2) => (acc.1, lg2))
      (([] : List Sample), lg)
    (samples, lg', newCarry)

/-! ### Monitor and overlay state

`DataMonitor` owns the single pair of last-good dicts used by
`parse_log_line_abs_seconds`; the primary tailer and every live-overlay
tailer call that method on the same object. -/

/-- The per-overlay state created by `OverlayItem.__init__` /
`start_live_overlay` (only the fields the tailer logic touches). -/
structure OverlayState where
  buffers : StreamBuffers
  file_pos : ℕ
  carry : List Char
  t_start_abs : Option ℚ
deriving DecidableEq, Repr

/-- Overlay state as (re)initialised by `start_live_overlay`. -/
def overlayInit : OverlayState := ⟨StreamBuffers.init MAX_POINTS, 0, [], none⟩

/-- The `DataMonitor` state the ingestion logic touches. -/
structure MonitorState where
  lastGood : LastGood
  main : StreamBuffers
  file_pos : ℕ
  carry : List Char
  main_t_start_abs : Option ℚ
  queue : List Sample
deriving DecidableEq, Repr

/-- Monitor state after `DataMonitor.__init__` / `reset_main`. -/
def monitorInit : MonitorState :=
  ⟨lastGoodInit, StreamBuffers.init MAX_POINTS, 0, [], none, []⟩

/-- The main tailer's handling of one non-empty read (`read_loop_main`,
lines 275–287): parsed samples go to the hand-off queue; the carry and the
shared last-good state are updated in place. -/
def mainHandleChunk (m : MonitorState) (chunk : List Char) : MonitorState :=
  let (samples, lg', carry') := handleChunk m.lastGood m.carry chunk
  { m with lastGood := lg', carry := carry', queue := m.queue ++ samples }

/-- A live overlay tailer's handling of one non-empty read
(`start_live_overlay._tail`, lines 344–361): each accepted sample is
rebased against the overlay's anchor and pushed into the overlay's own
buffers, while line parsing reads and writes the monitor's shared
last-good state (`self.parse_log_line_abs_seconds`). -/
def overlayHandleChunk (m : MonitorState) (ov : OverlayState)
    (chunk : List Char) : MonitorState × OverlayState :=
  let (samples, lg', carry') := handleChunk m.lastGood ov.carry chunk
  let (anchor, buffers) := samples.foldl
    (fun acc smp =>
      let (t_abs, sid, temp, hum) := smp
      let anc := match acc.1 with
        | none => t_abs
        | some a => a
      (some anc, acc.2.push (t_abs - anc) sid temp hum))
    (ov.t_start_abs, ov.buffers)
  ({ m with lastGood := lg' },
   { ov with carry := carry', t_start_abs := anchor, buffers := buffers })

/-! ### Truncation detection -/

/-- `truncated = (size < self.file_pos) or (size < last_size)` and the reset
block of `read_loop_main` (lines 260–268): offset, carry, both last-good
dicts and the time-base anchor are all cleared. -/
def mainCheckTruncate (m : MonitorState) (size last_size : ℕ) : MonitorState :=
  if size < m.file_pos ∨ size < last_size then
    { m with file_pos := 0, carry := [], lastGood := lastGoodInit,
             main_t_start_abs := none }
  else m

/-- The overlay tailer's truncation check (`start_live_overlay._tail`,
lines 333–337): `ov.file_pos`, `ov._carry` and `ov.t_start_abs` are reset;
nothing on the monitor (in particular not the shared last-good state) is
touched. -/
def overlayCheckTruncate (m : MonitorState) (ov : OverlayState)
    (size last_size : ℕ) : MonitorState × OverlayState :=
  if size < ov.file_pos ∨ size < last_size then
    (m, { ov with file_pos := 0, carry := [], t_start_abs := none })
  else (m, ov)

/-! ### Nearest-time lookup (`nearest_by_time`) -/

/-- Python `bisect.bisect_left(a, x)` on a sorted list: the first index
whose element is `≥ x` (the list's length when every element is `< x`). -/
def bisect_left (a : List ℚ) (x : ℚ) : ℕ :=
  a.findIdx (fun y => decide (x ≤ y))

/-- `nearest_by_time(t_list, v_list, t, max_dt)`: collect the candidate
indices around the insertion point (`i` first, then `i - 1` as in the
source), keep the strictly closest one, and return its value when within
tolerance. -/
def nearest_by_time (t_list v_list : List ℚ) (t max_dt : ℚ) : Option ℚ :=
  if t_list = [] then none
  else
    let i := bisect_left t_list t
    let candidates :=
      (if i < t_list.length then [i] else []) ++ (if 0 < i then [i - 1] else [])
    let best : Option (ℚ × ℚ) := candidates.foldl
      (fun acc j =>
        let dt := |t_list.getD j 0 - t|
        match acc with
        | none => some (v_list.getD j 0, dt)
        | some (_b, bdt) => if dt < bdt then some (v_list.getD j 0, dt) else acc)
      none
    match best with
    | some (b, bdt) => if bdt ≤ max_dt then some b else none
    | none => none

/-! ### Downsampling (`downsample_xy`) -/

/-- Helper for `sliceEvery`: the counter holds the number of elements still
to skip before the next one is kept. -/
def sliceEveryAux (k : ℕ) : List Rat → ℕ → List Rat
  | [], _ => []
  | x :: r, 0 => x :: sliceEveryAux k r (k - 1)
  | _ :: r, n + 1 => sliceEveryAux k r n

/-- Python extended slice `l[::k]` for `k ≥ 1`: indices `0, k, 2k, ...`. -/
def sliceEvery (k : ℕ) (l : List Rat) : List Rat :=
  sliceEveryAux k l 0

/-- `downsample_xy(xs, ys, max_points)` with `stride = max(1, n // max_points)`. -/
def downsample_xy (xs ys : List ℚ) (max_points : ℕ) : List ℚ × List ℚ :=
  let n := xs.length
  if n ≤ max_points then (xs, ys)
  else
    let stride := max 1 (n / max_points)
    (sliceEvery stride xs, sliceEvery stride ys)

/-! ### Timestamp formatting (`sec_to_mmss_mmm`) -/

/-- Python 3 `round()` on a real value: round half to even.  (`tsec` is a
non-negative float in the caller, represented exactly as a rational.) -/
def roundHalfEven (q : ℚ) : ℤ :=
  let n := ⌊q⌋
  let frac := q - n
  if frac < 1 / 2 then n
  else if 1 / 2 < frac then n + 1
  else if n % 2 = 0 then n else n + 1

/-- Python `f"{n:02d}"` for a non-negative integer. -/
def pad2 (n : ℕ) : String :=
  if n < 10 then "0" ++ Nat.repr n else Nat.repr n

/-- Python `f"{n:03d}"` for a non-negative integer. -/
def pad3 (n : ℕ) : String :=
  if n < 10 then "00" ++ Nat.repr n
  else if n < 100 then "0" ++ Nat.repr n
  else Nat.repr n

/-- `sec_to_mmss_mmm(tsec)`: clamp to non-negative, round to whole
milliseconds, and format as `MM:SS.mmm`.  (`int(round(x))` on the
non-negative result is the rounded integer itself, taken here through
`Int.toNat`.) -/
def sec_to_mmss_mmm (tsec : ℚ) : String :=
  let t := max 0 tsec
  let total_ms := (roundHalfEven (t * 1000)).toNat
  let ms := total_ms % 1000
  let total_s := total_ms / 1000
  let s := total_s % 60
  let m := total_s / 60
  pad2 m ++ ":" ++ pad2 s ++ "." ++ pad3 ms

/-! ### Viewport y-limits (`LivePlotterApp._fast_ylim`) -/

/-- `Y_PAD_FRAC` from the configuration block. -/
def Y_PAD_FRAC : ℚ := 8 / 100

/-- `MIN_YSPAN` from the configuration block. -/
def MIN_YSPAN : ℚ := 3 / 10

/-- The list comprehension `[y for x, y in zip(xs, ys) if x0 <= x <= x1]`. -/
def windowVals (xs ys : List ℚ) (x0 x1 : ℚ) : List ℚ :=
  ((xs.zip ys).filter (fun p => decide (x0 ≤ p.1) && decide (p.1 ≤ x1))).map Prod.snd

/-- `_fast_ylim(xs, ys, x0, x1)`: `None` when `xs` is empty or no point
falls inside the window, otherwise min/max of the in-window values padded
by `Y_PAD_FRAC` of the span floored at `MIN_YSPAN`. -/
def fast_ylim (xs ys : List ℚ) (x0 x1 : ℚ) : Option (ℚ × ℚ) :=
  if xs = [] then none
  else
    match windowVals xs ys x0 x1 with
    | [] => none
    | y :: rest =>
      let ymin := rest.foldl min y
      let ymax := rest.foldl max y
      let span := max MIN_YSPAN (ymax - ymin)
      let pad := span * Y_PAD_FRAC
      some (ymin - pad, ymax + pad)

/-! ## Theorems -/

attribute [local semireducible] Rat.add Rat.mul Rat.inv Rat.sub Rat.ofScientific

/-! ### Helper lemmas -/

theorem dequeAppend_length_le {cap : ℕ} (hc : 0 < cap) {xs : List ℚ}
    (h : xs.length ≤ cap) (x : ℚ) : (dequeAppend cap xs x).length ≤ cap := by
  unfold dequeAppend
  split
  · simpa using by omega
  · simp only [List.length_append, List.length_tail, List.length_cons,
      List.length_nil]
    omega

theorem sliceEveryAux_eq (k : ℕ) :
    ∀ (l : List Rat) (n : ℕ), sliceEveryAux k l n = sliceEvery k (l.drop n) := by
  intro l
  induction l with
  | nil => intro n; simp [sliceEveryAux, sliceEvery]
  | cons x r ih =>
    intro n
    cases n with
    | zero => simp [sliceEvery]
    | succ n => simpa [sliceEveryAux] using ih n

theorem sliceEvery_cons (k : ℕ) (x : Rat) (r : List Rat) :
    sliceEvery k (x :: r) = x :: sliceEvery k (r.drop (k - 1)) := by
  show x :: sliceEveryAux k r (k - 1) = _
  rw [sliceEveryAux_eq]

theorem sliceEvery_one : ∀ l : List Rat, sliceEvery 1 l = l := by
  intro l
  induction l with
  | nil => rfl
  | cons x r ih => rw [sliceEvery_cons]; simpa using ih

theorem sliceEvery_head? (k : ℕ) (l : List Rat) :
    (sliceEvery k l).head? = l.head? := by
  cases l with
  | nil => rfl
  | cons x r => rw [sliceEvery_cons]; rfl

theorem sliceEvery_length {k : ℕ} (hk : 0 < k) :
    ∀ l : List Rat, (sliceEvery k l).length = (l.length + k - 1) / k := by
  have main : ∀ (n : ℕ) (l : List Rat), l.length ≤ n →
      (sliceEvery k l).length = (l.length + k - 1) / k := by
    intro n
    induction n with
    | zero =>
      intro l hl
      obtain rfl : l = [] := List.eq_nil_of_length_eq_zero (Nat.le_zero.mp hl)
      simp [sliceEvery, sliceEveryAux, Nat.div_eq_of_lt (by omega : k - 1 < k)]
    | succ n ih =>
      intro l hl
      cases l with
      | nil => simp [sliceEvery, sliceEveryAux, Nat.div_eq_of_lt (by omega : k - 1 < k)]
      | cons x r =>
        rw [sliceEvery_cons]
        have hr : (r.drop (k - 1)).length ≤ n := by
          simp only [List.length_drop]
          simp only [List.length_cons] at hl
          omega
        rw [List.length_cons, ih _ hr, List.length_drop]
        simp only [List.length_cons]
        have hadd : r.length + 1 + k - 1 = r.length + k := by omega
        rw [hadd, Nat.add_div_right _ hk]
        rcases Nat.lt_or_ge r.length (k - 1) with h2 | h1
        · have e1 : r.length - (k - 1) = 0 := by omega
          rw [e1, Nat.zero_add, Nat.div_eq_of_lt (by omega : k - 1 < k),
            Nat.div_eq_of_lt (by omega : r.length < k)]
        · have e1 : r.length - (k - 1) + k - 1 = r.length := by omega
          rw [e1, Nat.add_comm]
  intro l
  exact main l.length l le_rfl

theorem foldl_min_le_init : ∀ (l : List ℚ) (a : ℚ), l.foldl min a ≤ a := by
  intro l
  induction l with
  | nil => intro a; simp
  | cons x r ih =>
    intro a
    calc (x :: r).foldl min a = r.foldl min (min a x) := rfl
    _ ≤ min a x := ih _
    _ ≤ a := min_le_left _ _

theorem foldl_min_le_mem :
    ∀ (l : List ℚ) (a : ℚ), ∀ b ∈ l, l.foldl min a ≤ b := by
  intro l
  induction l with
  | nil => intro a b hb; simp at hb
  | cons x r ih =>
    intro a b hb
    rcases List.mem_cons.mp hb with rfl | hb
    · calc (b :: r).foldl min a = r.foldl min (min a b) := rfl
      _ ≤ min a b := foldl_min_le_init _ _
      _ ≤ b := min_le_right _ _
    · exact ih (min a x) b hb

theorem foldl_min_mem : ∀ (l : List ℚ) (a : ℚ), l.foldl min a ∈ a :: l := by
  intro l
  induction l with
  | nil => intro a; simp
  | cons x r ih =>
    intro a
    have h := ih (min a x)
    rcases List.mem_cons.mp h with he | hm
    · rcases min_choice a x with h1 | h1 <;> rw [show (x :: r).foldl min a = r.foldl min (min a x) from rfl, he, h1] <;> simp
    · simp only [List.mem_cons]
      exact Or.inr (Or.inr hm)

theorem foldl_max_init_le : ∀ (l : List ℚ) (a : ℚ), a ≤ l.foldl max a := by
  intro l
  induction l with
  | nil => intro a; simp
  | cons x r ih =>
    intro a
    calc a ≤ max a x := le_max_left _ _
    _ ≤ r.foldl max (max a x) := ih _
    _ = (x :: r).foldl max a := rfl

theorem foldl_max_mem_le :
    ∀ (l : List ℚ) (a : ℚ), ∀ b ∈ l, b ≤ l.foldl max a := by
  intro l
  induction l with
  | nil => intro a b hb; simp at hb
  | cons x r ih =>
    intro a b hb
    rcases List.mem_cons.mp hb with rfl | hb
    · calc b ≤ max a b := le_max_right _ _
      _ ≤ r.foldl max (max a b) := foldl_max_init_le _ _
      _ = (b :: r).foldl max a := rfl
    · exact ih (max a x) b hb

theorem foldl_max_mem : ∀ (l : List ℚ) (a : ℚ), l.foldl max a ∈ a :: l := by
  intro l
  induction l with
  | nil => intro a; simp
  | cons x r ih =>
    intro a
    have h := ih (max a x)
    rcases List.mem_cons.mp h with he | hm
    · rcases max_choice a x with h1 | h1 <;> rw [show (x :: r).foldl max a = r.foldl max (max a x) from rfl, he, h1] <;> simp
    · simp only [List.mem_cons]
      exact Or.inr (Or.inr hm)

theorem roundHalfEven_nonneg {q : ℚ} (h : 0 ≤ q) : 0 ≤ roundHalfEven q := by
  have hf : 0 ≤ ⌊q⌋ := Int.floor_nonneg.mpr h
  unfold roundHalfEven
  dsimp only
  split_ifs <;> omega

theorem pad2_length : ∀ s : ℕ, s < 60 → (pad2 s).length = 2 := by decide

set_option maxRecDepth 10000 in
theorem pad3_length : ∀ n : ℕ, n < 1000 → (pad3 n).length = 3 := by decide

/-! ### C3: stream buffer capacity and FIFO eviction -/

/-- C3: for every sequence of pushes starting from the empty buffers, each
channel's time/temperature/humidity lists never exceed the fixed capacity
`MAX_POINTS = 250000`; and a push to a channel whose lists are at capacity
removes exactly the single oldest entry of each of that channel's lists and
appends the new value, leaving the other channel's lists unchanged. -/
theorem stream_buffer_capacity_fifo :
    (∀ ops : List PushOp,
      (applyPushes (StreamBuffers.init MAX_POINTS) ops).t1.length ≤ MAX_POINTS ∧
      (applyPushes (StreamBuffers.init MAX_POINTS) ops).T1.length ≤ MAX_POINTS ∧
      (applyPushes (StreamBuffers.init MAX_POINTS) ops).H1.length ≤ MAX_POINTS ∧
      (applyPushes (StreamBuffers.init MAX_POINTS) ops).t2.length ≤ MAX_POINTS ∧
      (applyPushes (StreamBuffers.init MAX_POINTS) ops).T2.length ≤ MAX_POINTS ∧
      (applyPushes (StreamBuffers.init MAX_POINTS) ops).H2.length ≤ MAX_POINTS) ∧
    (∀ (b : StreamBuffers) (t temp hum : ℚ),
      b.t1.length = b.maxlen → b.T1.length = b.maxlen → b.H1.length = b.maxlen →
      b.push t 1 temp hum =
        { b with t1 := b.t1.tail ++ [t], T1 := b.T1.tail ++ [temp],
                 H1 := b.H1.tail ++ [hum] }) ∧
    (∀ (b : StreamBuffers) (t temp hum : ℚ) (sid : ℕ), sid ≠ 1 →
      b.t2.length = b.maxlen → b.T2.length = b.maxlen → b.H2.length = b.maxlen →
      b.push t sid temp hum =
        { b with t2 := b.t2.tail ++ [t], T2 := b.T2.tail ++ [temp],
                 H2 := b.H2.tail ++ [hum] }) := by
  have hcap : 0 < MAX_POINTS := by norm_num [MAX_POINTS]
  refine ⟨?_, ?_, ?_⟩
  · have inv : ∀ (ops : List PushOp) (b : StreamBuffers),
        b.maxlen = MAX_POINTS →
        b.t1.length ≤ MAX_POINTS → b.T1.length ≤ MAX_POINTS →
        b.H1.length ≤ MAX_POINTS → b.t2.length ≤ MAX_POINTS →
        b.T2.length ≤ MAX_POINTS → b.H2.length ≤ MAX_POINTS →
        (applyPushes b ops).t1.length ≤ MAX_POINTS ∧
        (applyPushes b ops).T1.length ≤ MAX_POINTS ∧
        (applyPushes b ops).H1.length ≤ MAX_POINTS ∧
        (applyPushes b ops).t2.length ≤ MAX_POINTS ∧
        (applyPushes b ops).T2.length ≤ MAX_POINTS ∧
        (applyPushes b ops).H2.length ≤ MAX_POINTS := by
      intro ops
      induction ops with
      | nil => intro b _ h1 h2 h3 h4 h5 h6; exact ⟨h1, h2, h3, h4, h5, h6⟩
      | cons op rest ih =>
        intro b h0 h1 h2 h3 h4 h5 h6
        have hstep : applyPushes b (op :: rest) =
            applyPushes (b.push op.t op.sid op.temp op.hum) rest := rfl
        rw [hstep]
        by_cases hs : op.sid = 1
        · exact ih _ (by simp [StreamBuffers.push, hs, h0])
            (by simpa [StreamBuffers.push, hs, h0] using
              dequeAppend_length_le hcap (h0 ▸ h1) op.t)
            (by simpa [StreamBuffers.push, hs, h0] using
              dequeAppend_length_le hcap (h0 ▸ h2) op.temp)
            (by simpa [StreamBuffers.push, hs, h0] using
              dequeAppend_length_le hcap (h0 ▸ h3) op.hum)
            (by simpa [StreamBuffers.push, hs] using h4)
            (by simpa [StreamBuffers.push, hs] using h5)
            (by simpa [StreamBuffers.push, hs] using h6)
        · exact ih _ (by simp [StreamBuffers.push, hs, h0])
            (by simpa [StreamBuffers.push, hs] using h1)
            (by simpa [StreamBuffers.push, hs] using h2)
            (by simpa [StreamBuffers.push, hs] using h3)
            (by simpa [StreamBuffers.push, hs, h0] using
              dequeAppend_length_le hcap (h0 ▸ h4) op.t)
            (by simpa [StreamBuffers.push, hs, h0] using
              dequeAppend_length_le hcap (h0 ▸ h5) op.temp)
            (by simpa [StreamBuffers.push, hs, h0] using
              dequeAppend_length_le hcap (h0 ▸ h6) op.hum)
    intro ops
    exact inv ops _ rfl (by simp [StreamBuffers.init]) (by simp [StreamBuffers.init])
      (by simp [StreamBuffers.init]) (by simp [StreamBuffers.init])
      (by simp [StreamBuffers.init]) (by simp [StreamBuffers.init])
  · intro b t temp hum h1 h2 h3
    simp [StreamBuffers.push, dequeAppend, h1, h2, h3]
  · intro b t temp hum sid hs h1 h2 h3
    simp [StreamBuffers.push, dequeAppend, hs, h1, h2, h3]

/-- Witness for C3: pushing into a buffer of capacity 2 whose channel-1
lists are full evicts exactly the oldest entry of each channel-1 list. -/
theorem stream_buffer_capacity_fifo_witness :
    (⟨2, [1, 2], [3, 4], [5, 6], [9], [9], [9]⟩ : StreamBuffers).push 10 1 11 12 =
      ⟨2, [2, 10], [4, 11], [6, 12], [9], [9], [9]⟩ :=
  stream_buffer_capacity_fifo.2.1 ⟨2, [1, 2], [3, 4], [5, 6], [9], [9], [9]⟩
    10 11 12 rfl rfl rfl

/-! ### C5: downsampling -/

/-- C5 (amended): `downsample_xy` returns its input unchanged whenever the
input length is at or below the budget; above the budget it selects every
Nth point with stride `N = len / budget` (floor division, not the ceiling),
preserving the first point; the output length is `⌈len / N⌉`, which can
exceed the budget — in particular for `budget < len < 2 * budget` the
stride is 1 and the input is returned unchanged. -/
theorem downsample_xy_spec :
    ∀ (xs ys : List Rat) (b : ℕ), 0 < b →
    (xs.length ≤ b → downsample_xy xs ys b = (xs, ys)) ∧
    (b < xs.length →
      downsample_xy xs ys b =
        (sliceEvery (xs.length / b) xs, sliceEvery (xs.length / b) ys) ∧
      (downsample_xy xs ys b).1.head? = xs.head? ∧
      (downsample_xy xs ys b).1.length =
        (xs.length + xs.length / b - 1) / (xs.length / b) ∧
      (xs.length < 2 * b → (downsample_xy xs ys b).1 = xs)) := by
  intro xs ys b hb
  constructor
  · intro h
    simp [downsample_xy, h]
  · intro h
    have hone : 1 ≤ xs.length / b := (Nat.one_le_div_iff hb).mpr (le_of_lt h)
    have hstride : max 1 (xs.length / b) = xs.length / b := Nat.max_eq_right hone
    have hds : downsample_xy xs ys b =
        (sliceEvery (xs.length / b) xs, sliceEvery (xs.length / b) ys) := by
      rw [downsample_xy]
      rw [if_neg (by omega), hstride]
    refine ⟨hds, ?_, ?_, ?_⟩
    · rw [hds]
      exact sliceEvery_head? _ _
    · rw [hds]
      exact sliceEvery_length hone _
    · intro h2
      have hlt : xs.length / b < 2 := Nat.div_lt_of_lt_mul (by omega)
      have h1' : xs.length / b = 1 := by omega
      rw [hds]
      simpa [h1'] using sliceEvery_one xs

/-- Witness for C5: a 3-point series with budget 3 is returned unchanged. -/
theorem downsample_xy_spec_witness :
    downsample_xy [1, 2, 3] [4, 5, 6] 3 = ([1, 2, 3], [4, 5, 6]) :=
  (downsample_xy_spec [1, 2, 3] [4, 5, 6] 3 (by decide)).1 (by decide)

/-- Counterexample for C5 as stated: with 4 points and budget 3 the code's
floor stride is `max(1, 4 // 3) = 1`, so the output is the whole input —
its length 4 exceeds the budget, and it differs from the every-2nd-point
selection that the claimed ceiling stride `⌈4/3⌉ = 2` would produce. -/
theorem downsample_exceeds_budget_cex :
    downsample_xy [1, 2, 3, 4] [5, 6, 7, 8] 3 = ([1, 2, 3, 4], [5, 6, 7, 8]) ∧
    3 < (downsample_xy [1, 2, 3, 4] [5, 6, 7, 8] 3).1.length ∧
    (downsample_xy [1, 2, 3, 4] [5, 6, 7, 8] 3).1 ≠ sliceEvery 2 [1, 2, 3, 4] := by
  decide

/-! ### C7: timestamp formatting -/

/-- C7 (amended): for every non-negative seconds value, the exported
timestamp is `MM:SS.mmm` with zero-padded two-digit seconds and exactly
three millisecond digits, where the total millisecond count is obtained by
rounding `t * 1000` half-to-even (Python `round`) — not by truncation. -/
theorem sec_to_mmss_mmm_format :
    ∀ t : ℚ, 0 ≤ t →
    ∃ m s ms : ℕ, s < 60 ∧ ms < 1000 ∧
      ((m * 60 + s) * 1000 + ms : ℤ) = roundHalfEven (t * 1000) ∧
      sec_to_mmss_mmm t = pad2 m ++ ":" ++ pad2 s ++ "." ++ pad3 ms ∧
      (pad2 s).length = 2 ∧ (pad3 ms).length = 3 := by
  intro t ht
  have hmax : max 0 t = t := max_eq_right ht
  refine ⟨(roundHalfEven (max 0 t * 1000)).toNat / 1000 / 60,
    (roundHalfEven (max 0 t * 1000)).toNat / 1000 % 60,
    (roundHalfEven (max 0 t * 1000)).toNat % 1000,
    Nat.mod_lt _ (by norm_num), Nat.mod_lt _ (by norm_num), ?_, rfl,
    pad2_length _ (Nat.mod_lt _ (by norm_num)),
    pad3_length _ (Nat.mod_lt _ (by norm_num))⟩
  have hnn : (0 : ℚ) ≤ t * 1000 := mul_nonneg ht (by norm_num)
  have hZ : ((roundHalfEven (max 0 t * 1000)).toNat : ℤ) =
      roundHalfEven (t * 1000) := by
    rw [hmax]
    exact Int.toNat_of_nonneg (roundHalfEven_nonneg hnn)
  set N : ℕ := (roundHalfEven (max 0 t * 1000)).toNat with hNdef
  have hNat : (N / 1000 / 60 * 60 + N / 1000 % 60) * 1000 + N % 1000 = N := by
    omega
  rw [← hZ]
  exact_mod_cast congrArg (Nat.cast : ℕ → ℤ) hNat

/-- Witness for C7: the format theorem applied at `t = 3/2`. -/
theorem sec_to_mmss_mmm_format_witness :
    ∃ m s ms : ℕ, s < 60 ∧ ms < 1000 ∧
      ((m * 60 + s) * 1000 + ms : ℤ) = roundHalfEven ((3 / 2 : ℚ) * 1000) ∧
      sec_to_mmss_mmm (3 / 2) = pad2 m ++ ":" ++ pad2 s ++ "." ++ pad3 ms ∧
      (pad2 s).length = 2 ∧ (pad3 ms).length = 3 :=
  sec_to_mmss_mmm_format (3 / 2) (by decide)

/-- Counterexample for C7 as stated: at `t = 0.0019` the code rounds
`1.9 ms` up to `2 ms` (`"00:00.002"`), while the claimed truncation
`⌊t * 1000⌋ = 1` would give `"00:00.001"`. -/
theorem sec_to_mmss_mmm_truncation_cex :
    sec_to_mmss_mmm (19 / 10000) = "00:00.002" ∧
    (⌊(19 / 10000 : ℚ) * 1000⌋ : ℤ) = 1 ∧
    sec_to_mmss_mmm (19 / 10000) ≠
      "00:00." ++ pad3 (⌊(19 / 10000 : ℚ) * 1000⌋).toNat := by
  decide

/-! ### C8: viewport y-limits -/

/-- C8 (amended): whenever `_fast_ylim` returns limits `(lo, hi)`, they
cover every in-window value with a pad of 8% of the span floored at
`MIN_YSPAN = 0.3`; the resulting height `hi - lo` equals the raw span plus
twice that pad, hence is at least `2 * 0.3 * 0.08 = 0.048` — but it is not
floored at 0.3 itself (see the counterexample). -/
theorem fast_ylim_spec :
    ∀ (xs ys : List ℚ) (x0 x1 lo hi : ℚ),
    fast_ylim xs ys x0 x1 = some (lo, hi) →
    ∃ ymin ymax : ℚ,
      ymin ∈ windowVals xs ys x0 x1 ∧ ymax ∈ windowVals xs ys x0 x1 ∧
      (∀ y ∈ windowVals xs ys x0 x1, ymin ≤ y ∧ y ≤ ymax) ∧
      lo = ymin - max MIN_YSPAN (ymax - ymin) * Y_PAD_FRAC ∧
      hi = ymax + max MIN_YSPAN (ymax - ymin) * Y_PAD_FRAC ∧
      (∀ y ∈ windowVals xs ys x0 x1, lo ≤ y ∧ y ≤ hi) ∧
      2 * (MIN_YSPAN * Y_PAD_FRAC) ≤ hi - lo := by
  intro xs ys x0 x1 lo hi h
  unfold fast_ylim at h
  split at h
  · exact absurd h (by simp)
  · revert h
    cases hw : windowVals xs ys x0 x1 with
    | nil => intro h; exact absurd h (by simp)
    | cons y rest =>
      intro h
      simp only [Option.some.injEq, Prod.mk.injEq] at h
      obtain ⟨hlo, hhi⟩ := h
      refine ⟨rest.foldl min y, rest.foldl max y, ?_, ?_, ?_, hlo.symm, hhi.symm, ?_, ?_⟩
      · exact foldl_min_mem rest y
      · exact foldl_max_mem rest y
      · intro z hz
        rcases List.mem_cons.mp hz with rfl | hz
        · exact ⟨foldl_min_le_init _ _, foldl_max_init_le _ _⟩
        · exact ⟨foldl_min_le_mem _ _ _ hz, foldl_max_mem_le _ _ _ hz⟩
      · intro z hz
        have hpad : MIN_YSPAN * Y_PAD_FRAC ≤
            max MIN_YSPAN (rest.foldl max y - rest.foldl min y) * Y_PAD_FRAC :=
          mul_le_mul_of_nonneg_right (le_max_left _ _)
            (by norm_num [Y_PAD_FRAC])
        have hpos : (0 : ℚ) < MIN_YSPAN * Y_PAD_FRAC := by
          norm_num [MIN_YSPAN, Y_PAD_FRAC]
        have hzmin : rest.foldl min y ≤ z := by
          rcases List.mem_cons.mp hz with rfl | hz2
          · exact foldl_min_le_init _ _
          · exact foldl_min_le_mem _ _ _ hz2
        have hzmax : z ≤ rest.foldl max y := by
          rcases List.mem_cons.mp hz with rfl | hz2
          · exact foldl_max_init_le _ _
          · exact foldl_max_mem_le _ _ _ hz2
        constructor
        · rw [← hlo]; linarith
        · rw [← hhi]; linarith
      · have hpad : MIN_YSPAN * Y_PAD_FRAC ≤
            max MIN_YSPAN (rest.foldl max y - rest.foldl min y) * Y_PAD_FRAC :=
          mul_le_mul_of_nonneg_right (le_max_left _ _)
            (by norm_num [Y_PAD_FRAC])
        have hmm : rest.foldl min y ≤ rest.foldl max y :=
          le_trans (foldl_min_le_init rest y) (foldl_max_init_le rest y)
        rw [← hlo, ← hhi]
        linarith

/-- Witness for C8: the y-limit theorem applied to a one-point window. -/
theorem fast_ylim_spec_witness :
    ∃ ymin ymax : ℚ,
      ymin ∈ windowVals [1] [5] 0 2 ∧ ymax ∈ windowVals [1] [5] 0 2 ∧
      (∀ y ∈ windowVals [1] [5] 0 2, ymin ≤ y ∧ y ≤ ymax) ∧
      (622 / 125 : ℚ) = ymin - max MIN_YSPAN (ymax - ymin) * Y_PAD_FRAC ∧
      (628 / 125 : ℚ) = ymax + max MIN_YSPAN (ymax - ymin) * Y_PAD_FRAC ∧
      (∀ y ∈ windowVals [1] [5] 0 2, (622 / 125 : ℚ) ≤ y ∧ y ≤ 628 / 125) ∧
      2 * (MIN_YSPAN * Y_PAD_FRAC) ≤ (628 / 125 : ℚ) - 622 / 125 :=
  fast_ylim_spec [1] [5] 0 2 (622 / 125) (628 / 125) (by decide)

/-- Counterexample for C8 as stated: a constant in-window signal yields
limits only `0.048` apart — the span floor of `0.3` units claimed by the
spec does not hold for the returned interval. -/
theorem fast_ylim_min_span_cex :
    fast_ylim [1] [5] 0 2 = some (622 / 125, 628 / 125) ∧
    (628 / 125 : ℚ) - 622 / 125 < 3 / 10 := by
  decide

/-! ### C4: truncation resets -/

/-- C4 (amended): on a detected truncation (observed size below the stored
offset or the last-seen size) the primary tailer resets the offset and
clears the carry, the time-base anchor and both last-good caches; an
overlay tailer resets only its own offset, carry and anchor and never
touches the monitor — in particular the shared last-good caches survive an
overlay truncation. -/
theorem truncation_reset_spec :
    ∀ (m : MonitorState) (ov : OverlayState) (size last_size : ℕ),
    (size < m.file_pos ∨ size < last_size →
      mainCheckTruncate m size last_size =
        { m with file_pos := 0, carry := [], lastGood := lastGoodInit,
                 main_t_start_abs := none }) ∧
    (size < ov.file_pos ∨ size < last_size →
      overlayCheckTruncate m ov size last_size =
        (m, { ov with file_pos := 0, carry := [], t_start_abs := none })) ∧
    (overlayCheckTruncate m ov size last_size).1 = m := by
  intro m ov size last_size
  refine ⟨?_, ?_, ?_⟩
  · intro h
    simp [mainCheckTruncate, h]
  · intro h
    simp [overlayCheckTruncate, h]
  · unfold overlayCheckTruncate
    split <;> rfl

/-- Witness for C4: a primary truncation (size 3 below offset 5) clears
offset, carry, anchor and last-good caches. -/
theorem truncation_reset_spec_witness :
    mainCheckTruncate
        { monitorInit with file_pos := 5, lastGood := ⟨some 1, none, none, none⟩ } 3 0 =
      { { monitorInit with file_pos := 5, lastGood := ⟨some 1, none, none, none⟩ } with
        file_pos := 0, carry := [], lastGood := lastGoodInit,
        main_t_start_abs := none } :=
  (truncation_reset_spec
    { monitorInit with file_pos := 5, lastGood := ⟨some 1, none, none, none⟩ }
    overlayInit 3 0).1 (Or.inl (by decide))

/-- Counterexample for C4 as stated: an overlay truncation (size 3 below
the overlay offset 5) resets the overlay's offset and anchor but leaves the
last-good caches — which the claim says are cleared for every source
tailer — untouched and non-empty. -/
theorem overlay_truncation_keeps_last_good_cex :
    (overlayCheckTruncate
        { monitorInit with lastGood := ⟨some 25, none, some 50, none⟩ }
        { overlayInit with file_pos := 5 } 3 0).2.file_pos = 0 ∧
    (overlayCheckTruncate
        { monitorInit with lastGood := ⟨some 25, none, some 50, none⟩ }
        { overlayInit with file_pos := 5 } 3 0).2.t_start_abs = none ∧
    (overlayCheckTruncate
        { monitorInit with lastGood := ⟨some 25, none, some 50, none⟩ }
        { overlayInit with file_pos := 5 } 3 0).1.lastGood =
      ⟨some 25, none, some 50, none⟩ ∧
    (⟨some 25, none, some 50, none⟩ : LastGood) ≠ lastGoodInit := by
  decide

/-! ### C2: the last-good state is shared across sources -/

/-- C2 (amended): the per-channel last-accepted state is a single pair of
caches on the monitor shared by the primary and every live overlay: an
overlay's parsing outcome depends on the monitor state only through
`lastGood`, and processing a chunk on an overlay updates exactly the state
that the primary's own processing of the same bytes would update. -/
theorem overlay_validation_shares_state :
    ∀ (m m' : MonitorState) (ov : OverlayState) (chunk : List Char),
    m.lastGood = m'.lastGood →
    (overlayHandleChunk m ov chunk).2 = (overlayHandleChunk m' ov chunk).2 ∧
    (overlayHandleChunk m ov chunk).1.lastGood =
      (overlayHandleChunk m' ov chunk).1.lastGood ∧
    (overlayHandleChunk m ov chunk).1.lastGood =
      (mainHandleChunk { m with carry := ov.carry } chunk).lastGood := by
  intro m m' ov chunk h
  rcases hh : handleChunk m.lastGood ov.carry chunk with ⟨samples, lg2, carry2⟩
  refine ⟨?_, ?_, ?_⟩ <;>
    simp [overlayHandleChunk, mainHandleChunk, ← h, hh]

/-- Witness for C2: two monitor states that differ outside `lastGood`
produce identical overlay results. -/
theorem overlay_validation_shares_state_witness :
    (overlayHandleChunk { monitorInit with queue := [(1, 1, 1, 1)] }
        overlayInit "0,Sensor1,25.0,50.0\n".data).2 =
      (overlayHandleChunk monitorInit overlayInit "0,Sensor1,25.0,50.0\n".data).2 :=
  (overlay_validation_shares_state { monitorInit with queue := [(1, 1, 1, 1)] }
    monitorInit overlayInit "0,Sensor1,25.0,50.0\n".data rfl).1

/-- Counterexample for C2 as stated: the same overlay chunk
(`0,Sensor1,80.0,50.0`) is accepted when no other source has run, but
rejected after the primary processed `0,Sensor1,25.0,50.0` — because the
step check reads the last-good cache the primary just wrote (a 55 °C jump
against the primary's 25 °C), so acceptance on one source is not
independent of the other sources' lines. -/
theorem overlay_step_not_independent_cex :
    (overlayHandleChunk monitorInit overlayInit
        "0,Sensor1,80.0,50.0\n".data).2.buffers.t1 = [0] ∧
    (overlayHandleChunk (mainHandleChunk monitorInit "0,Sensor1,25.0,50.0\n".data)
        overlayInit "0,Sensor1,80.0,50.0\n".data).2.buffers.t1 = [] := by
  decide

/-! ### C9: split reads and carry reassembly -/

/-- C9 (amended): feeding `"Sensor1,2"` and then `"5.0,40.0\n"` retains the
first chunk as carry and reassembles the full line, and the outcome is
identical to feeding `"Sensor1,25.0,40.0\n"` in a single read — but the
number of accepted samples is zero, not one: the reassembled line has only
three comma-separated fields and matches neither accepted format.  With a
leading time field (`"0,Sensor1,2"` then `"5.0,40.0\n"`) the same carry
logic yields exactly one accepted sample, identical to the single read. -/
theorem split_read_reassembly :
    handleChunk lastGoodInit [] "Sensor1,2".data =
      ([], lastGoodInit, "Sensor1,2".data) ∧
    handleChunk lastGoodInit "Sensor1,2".data "5.0,40.0\n".data =
      handleChunk lastGoodInit [] "Sensor1,25.0,40.0\n".data ∧
    (handleChunk lastGoodInit "Sensor1,2".data "5.0,40.0\n".data).1 = [] ∧
    handleChunk lastGoodInit "0,Sensor1,2".data "5.0,40.0\n".data =
      handleChunk lastGoodInit [] "0,Sensor1,25.0,40.0\n".data ∧
    (handleChunk lastGoodInit "0,Sensor1,2".data "5.0,40.0\n".data).1 =
      [(0, 1, 25, 40)] := by
  refine ⟨?_, ?_, ?_, ?_, ?_⟩ <;> decide

/-- Counterexample for C9 as stated: the two reads of the claim yield zero
accepted samples, not exactly one — `"Sensor1,25.0,40.0"` has three fields
and is rejected by both the delimited branch and the regex. -/
theorem split_read_sample_count_cex :
    handleChunk lastGoodInit [] "Sensor1,2".data =
      ([], lastGoodInit, "Sensor1,2".data) ∧
    (handleChunk lastGoodInit "Sensor1,2".data "5.0,40.0\n".data).1.length = 0 ∧
    (handleChunk lastGoodInit "Sensor1,2".data "5.0,40.0\n".data).1.length ≠ 1 := by
  decide

/-! ### C10: channel id from the label's last character -/

/-- C10: in the delimited branch the channel id is decided solely by
whether the space-stripped label ends in `"1"`: any label that
case-insensitively starts with `"sensor"` but does not end in `"1"` is
assigned channel 2 and accepted whenever range and step validation pass —
in particular `Sensor3` is not rejected. -/
theorem delimited_channel_by_ends_in_one :
    (∀ (lg : LastGood) (t_abs : ℚ) (label : List Char) (temp hum : ℚ),
      startsWithSensor label = true → endsInOne label = false →
      valid_ranges temp hum = true → valid_step lg 2 temp hum = true →
      delimitedLabelStep lg t_abs label temp hum =
        some (some (t_abs, 2, temp, hum), lg.set 2 temp hum)) ∧
    (parse_log_line_abs_seconds lastGoodInit "0,Sensor3,25.0,50.0".data).1 =
      some (0, 2, 25, 50) := by
  constructor
  · intro lg t_abs label temp hum h1 h2 h3 h4
    simp [delimitedLabelStep, h1, h2, acceptSample, h3, h4]
  · decide

/-- Witness for C10: the label theorem applied to `Sensor3`. -/
theorem delimited_channel_by_ends_in_one_witness :
    delimitedLabelStep lastGoodInit 0 "Sensor3".data 25 50 =
      some (some (0, 2, 25, 50), lastGoodInit.set 2 25 50) :=
  delimited_channel_by_ends_in_one.1 lastGoodInit 0 "Sensor3".data 25 50
    (by decide) (by decide) (by decide) (by decide)

/-! ### C1: accepted samples satisfy range and step invariants -/

theorem valid_ranges_spec {temp hum : ℚ} (h : valid_ranges temp hum = true) :
    -40 ≤ temp ∧ temp ≤ 125 ∧ 0 ≤ hum ∧ hum ≤ 100 := by
  unfold valid_ranges at h
  simp only [Bool.and_eq_true, decide_eq_true_eq] at h
  exact ⟨h.1.1.1, h.1.1.2, h.1.2, h.2⟩

theorem valid_step_spec {lg : LastGood} {sid : ℕ} {temp hum : ℚ}
    (h : valid_step lg sid temp hum = true) {lt lh : ℚ}
    (h1 : lg.temp sid = some lt) (h2 : lg.hum sid = some lh) :
    |temp - lt| ≤ 5 ∧ |hum - lh| ≤ 20 := by
  unfold valid_step at h
  rw [h1, h2] at h
  simpa using h

theorem valid_step_first {lg : LastGood} {sid : ℕ} (temp hum : ℚ)
    (h : lg.temp sid = none ∨ lg.hum sid = none) :
    valid_step lg sid temp hum = true := by
  unfold valid_step
  rcases h with h | h
  · rw [h]
  · rw [h]
    cases lg.temp sid <;> rfl

theorem acceptSample_none {lg : LastGood} {t_abs : ℚ} {sid : ℕ} {temp hum : ℚ}
    (h : (acceptSample lg t_abs sid temp hum).1 = none) :
    (acceptSample lg t_abs sid temp hum).2 = lg := by
  unfold acceptSample at h ⊢
  split_ifs at h ⊢ <;> simp_all

theorem acceptSample_some {lg : LastGood} {t_abs : ℚ} {sid : ℕ}
    {temp hum t' : ℚ} {sid' : ℕ} {temp' hum' : ℚ}
    (h : (acceptSample lg t_abs sid temp hum).1 = some (t', sid', temp', hum')) :
    t' = t_abs ∧ sid' = sid ∧ temp' = temp ∧ hum' = hum ∧
    valid_ranges temp hum = true ∧ valid_step lg sid temp hum = true ∧
    (acceptSample lg t_abs sid temp hum).2 = lg.set sid temp hum := by
  unfold acceptSample at h ⊢
  split_ifs at h ⊢ with h1 h2
  simp only [Option.some.injEq, Prod.mk.injEq] at h
  exact ⟨h.1.symm, h.2.1.symm, h.2.2.1.symm, h.2.2.2.symm, h1, h2, rfl⟩

theorem delimitedBranch_shape {lg : LastGood} {s : List Char}
    {r : Option Sample × LastGood} (h : delimitedBranch lg s = some r) :
    ∃ (t : ℚ) (sid : ℕ) (temp hum : ℚ), r = acceptSample lg t sid temp hum := by
  unfold delimitedBranch at h
  dsimp only at h
  rcases hdf : delimitedFields ((splitComma s).map pyStrip) with _ | ⟨t, txt, temp, hum⟩
  · rw [hdf] at h
    exact absurd h (by simp)
  · rw [hdf] at h
    dsimp only at h
    unfold delimitedLabelStep at h
    split at h
    · simp only [Option.some.injEq] at h
      exact ⟨t, if endsInOne txt then 1 else 2, temp, hum, h.symm⟩
    · exact absurd h (by simp)

theorem parse_result_shape (lg : LastGood) (s : List Char) :
    parse_log_line_abs_seconds lg s = (none, lg) ∨
    ∃ (t : ℚ) (sid : ℕ) (temp hum : ℚ),
      parse_log_line_abs_seconds lg s = acceptSample lg t sid temp hum := by
  unfold parse_log_line_abs_seconds
  split
  · exact Or.inl rfl
  · split
    · exact Or.inl rfl
    · cases hdb : delimitedBranch lg s with
      | some r =>
        obtain ⟨t, sid, temp, hum, rfl⟩ := delimitedBranch_shape hdb
        exact Or.inr ⟨t, sid, temp, hum, rfl⟩
      | none =>
        cases hre : lineReMatch s with
        | none => exact Or.inl rfl
        | some g =>
          obtain ⟨mD, sD, msD, txt, temp, hum⟩ := g
          exact Or.inr ⟨to_seconds mD sD msD,
            if endsInOne txt then 1 else 2, temp, hum, rfl⟩

/-- C1: every sample accepted by `parse_log_line_abs_seconds` satisfies the
range bounds (temperature in `[-40, 125]`, humidity in `[0, 100]`); if a
previously accepted value exists for that channel in the last-good state,
the accepted sample is within the step bounds (`|Δtemp| ≤ 5`,
`|Δhum| ≤ 20`) of it, and the state is updated to the accepted values; a
channel with no previous value passes the step check unconditionally; and a
rejected line leaves the last-good state unchanged. -/
theorem parse_accept_range_step :
    ∀ (lg : LastGood) (s : List Char),
    ((parse_log_line_abs_seconds lg s).1 = none →
      (parse_log_line_abs_seconds lg s).2 = lg) ∧
    (∀ (t : ℚ) (sid : ℕ) (temp hum : ℚ),
      (parse_log_line_abs_seconds lg s).1 = some (t, sid, temp, hum) →
      (-40 ≤ temp ∧ temp ≤ 125 ∧ 0 ≤ hum ∧ hum ≤ 100) ∧
      (∀ lt lh : ℚ, lg.temp sid = some lt → lg.hum sid = some lh →
        |temp - lt| ≤ 5 ∧ |hum - lh| ≤ 20) ∧
      (parse_log_line_abs_seconds lg s).2 = lg.set sid temp hum) ∧
    (∀ (sid : ℕ) (temp hum : ℚ), lg.temp sid = none ∨ lg.hum sid = none →
      valid_step lg sid temp hum = true) := by
  intro lg s
  refine ⟨?_, ?_, fun sid temp hum h => valid_step_first temp hum h⟩
  · intro h
    rcases parse_result_shape lg s with heq | ⟨t0, sid0, temp0, hum0, heq⟩
    · rw [heq]
    · rw [heq] at h ⊢
      exact acceptSample_none h
  · intro t sid temp hum h
    rcases parse_result_shape lg s with heq | ⟨t0, sid0, temp0, hum0, heq⟩
    · rw [heq] at h
      exact absurd h (by simp)
    · rw [heq] at h ⊢
      obtain ⟨rfl, rfl, rfl, rfl, hr, hs, h2⟩ := acceptSample_some h
      exact ⟨valid_ranges_spec hr,
        fun lt lh h1 h2' => valid_step_spec hs h1 h2', h2⟩

/-- Witness for C1: a `Sensor1` line accepted against an existing last-good
value `24 °C / 45 %` satisfies range and step bounds and updates the
state. -/
theorem parse_accept_range_step_witness :
    ((-40 ≤ (25 : ℚ) ∧ (25 : ℚ) ≤ 125 ∧ 0 ≤ (50 : ℚ) ∧ (50 : ℚ) ≤ 100) ∧
     (∀ lt lh : ℚ,
        (⟨some 24, none, some 45, none⟩ : LastGood).temp 1 = some lt →
        (⟨some 24, none, some 45, none⟩ : LastGood).hum 1 = some lh →
        |(25 : ℚ) - lt| ≤ 5 ∧ |(50 : ℚ) - lh| ≤ 20) ∧
     (parse_log_line_abs_seconds ⟨some 24, none, some 45, none⟩
        "0,Sensor1,25.0,50.0".data).2 =
       (⟨some 24, none, some 45, none⟩ : LastGood).set 1 25 50) :=
  (parse_accept_range_step ⟨some 24, none, some 45, none⟩
    "0,Sensor1,25.0,50.0".data).2.1 0 1 25 50 (by decide)

/-! ### C6: nearest-time lookup -/

theorem getD_eq_getElem' {l : List ℚ} {n : ℕ} (h : n < l.length) (d : ℚ) :
    l.getD n d = l[n] := by
  rw [List.getD_eq_getElem?_getD, List.getElem?_eq_getElem h]
  rfl

theorem getD_mono_of_pairwise {a : List ℚ} (hs : List.Pairwise (· ≤ ·) a)
    {k1 k2 : ℕ} (hk : k1 ≤ k2) (h2 : k2 < a.length) :
    a.getD k1 0 ≤ a.getD k2 0 := by
  have h1 : k1 < a.length := Nat.lt_of_le_of_lt hk h2
  rw [getD_eq_getElem' h1, getD_eq_getElem' h2]
  rcases Nat.eq_or_lt_of_le hk with rfl | hlt
  · exact le_rfl
  · exact List.pairwise_iff_getElem.mp hs k1 k2 h1 h2 hlt

theorem bisect_left_le (a : List ℚ) (x : ℚ) : bisect_left a x ≤ a.length :=
  List.findIdx_le_length _

theorem bisect_left_ge {a : List ℚ} {x : ℚ} (h : bisect_left a x < a.length) :
    x ≤ a.getD (bisect_left a x) 0 := by
  rw [getD_eq_getElem' h]
  exact of_decide_eq_true
    (@List.findIdx_getElem ℚ (fun y => decide (x ≤ y)) a h)

theorem bisect_left_before {a : List ℚ} {x : ℚ} {k : ℕ}
    (h : k < bisect_left a x) : a.getD k 0 < x := by
  have hk : k < a.length := Nat.lt_of_lt_of_le h (bisect_left_le a x)
  rw [getD_eq_getElem' hk]
  have hfalse := @List.not_of_lt_findIdx ℚ (fun y => decide (x ≤ y)) a k h
  have h2 : ¬x ≤ a[k] := by simpa using hfalse
  exact lt_of_not_le h2

theorem dist_min_right {a : List ℚ} {t : ℚ} (hs : List.Pairwise (· ≤ ·) a)
    {k : ℕ} (hik : bisect_left a t ≤ k) (hk : k < a.length) :
    |a.getD (bisect_left a t) 0 - t| ≤ |a.getD k 0 - t| := by
  have hi : bisect_left a t < a.length := Nat.lt_of_le_of_lt hik hk
  have h1 : t ≤ a.getD (bisect_left a t) 0 := bisect_left_ge hi
  have h2 : a.getD (bisect_left a t) 0 ≤ a.getD k 0 :=
    getD_mono_of_pairwise hs hik hk
  rw [abs_of_nonneg (by linarith), abs_of_nonneg (by linarith)]
  linarith

theorem dist_min_left {a : List ℚ} {t : ℚ} (hs : List.Pairwise (· ≤ ·) a)
    {k : ℕ} (hk : k < bisect_left a t) :
    |a.getD (bisect_left a t - 1) 0 - t| ≤ |a.getD k 0 - t| := by
  have hkl : k < a.length := Nat.lt_of_lt_of_le hk (bisect_left_le a t)
  have hil : bisect_left a t - 1 < a.length := by
    have := bisect_left_le a t
    omega
  have h1 : a.getD (bisect_left a t - 1) 0 < t := bisect_left_before (by omega)
  have h2 : a.getD k 0 ≤ a.getD (bisect_left a t - 1) 0 :=
    getD_mono_of_pairwise hs (by omega) hil
  rw [abs_of_nonpos (by linarith), abs_of_nonpos (by linarith)]
  linarith

theorem nearest_finish {a v : List ℚ} {t md : ℚ} {j : ℕ} (hj : j < a.length)
    (heq : nearest_by_time a v t md =
      if |a.getD j 0 - t| ≤ md then some (v.getD j 0) else none)
    (hmin : ∀ k, k < a.length → |a.getD j 0 - t| ≤ |a.getD k 0 - t|) :
    (nearest_by_time a v t md = none ↔
      ∀ k, k < a.length → md < |a.getD k 0 - t|) ∧
    (∀ w, nearest_by_time a v t md = some w →
      ∃ j2, j2 < a.length ∧ w = v.getD j2 0 ∧ |a.getD j2 0 - t| ≤ md ∧
        ∀ k, k < a.length → |a.getD j2 0 - t| ≤ |a.getD k 0 - t|) := by
  constructor
  · rw [heq]
    constructor
    · intro hnone k hk
      split at hnone
      · exact absurd hnone (by simp)
      · next hgt => exact lt_of_lt_of_le (not_le.mp hgt) (hmin k hk)
    · intro hall
      rw [if_neg (not_le.mpr (hall j hj))]
  · intro w hw
    rw [heq] at hw
    split at hw
    · next hle =>
      simp only [Option.some.injEq] at hw
      exact ⟨j, hj, hw.symm, hle, hmin⟩
    · exact absurd hw (by simp)

/-- C6: on a sorted time sequence, `nearest_by_time` returns `none` exactly
when no recorded time lies within the tolerance of the query, and any value
it returns belongs to an index whose recorded time is within tolerance and
is closest to the query over the whole sequence; in particular, for times
`[1, 2, 5]` and values `[10, 20, 50]`, querying `t = 2.2` with tolerance
`0.3` returns `20` and querying `t = 3.5` returns no value. -/
theorem nearest_by_time_spec :
    (∀ (a v : List ℚ) (t md : ℚ), List.Pairwise (· ≤ ·) a →
      (nearest_by_time a v t md = none ↔
        ∀ k, k < a.length → md < |a.getD k 0 - t|) ∧
      (∀ w, nearest_by_time a v t md = some w →
        ∃ j, j < a.length ∧ w = v.getD j 0 ∧ |a.getD j 0 - t| ≤ md ∧
          ∀ k, k < a.length → |a.getD j 0 - t| ≤ |a.getD k 0 - t|)) ∧
    nearest_by_time [1, 2, 5] [10, 20, 50] (11 / 5) (3 / 10) = some 20 ∧
    nearest_by_time [1, 2, 5] [10, 20, 50] (7 / 2) (3 / 10) = none := by
  refine ⟨?_, by decide, by decide⟩
  intro a v t md hs
  by_cases hne : a = []
  · subst hne
    refine ⟨⟨fun _ k hk => absurd hk (by simp), fun _ => rfl⟩, fun w hw => ?_⟩
    exact absurd hw (by simp [nearest_by_time])
  · have hlen : 0 < a.length := List.length_pos.mpr hne
    have hile : bisect_left a t ≤ a.length := bisect_left_le a t
    by_cases hil : bisect_left a t < a.length
    · by_cases hip : 0 < bisect_left a t
      · -- both neighbours are candidates
        by_cases hcmp : |a.getD (bisect_left a t - 1) 0 - t| <
            |a.getD (bisect_left a t) 0 - t|
        · have heq : nearest_by_time a v t md =
              if |a.getD (bisect_left a t - 1) 0 - t| ≤ md then
                some (v.getD (bisect_left a t - 1) 0)
              else none := by
            unfold nearest_by_time
            rw [if_neg hne]
            dsimp only
            rw [if_pos hil, if_pos hip]
            simp only [List.cons_append, List.nil_append, List.foldl_cons,
              List.foldl_nil]
            rw [if_pos hcmp]
          refine nearest_finish (by omega) heq ?_
          intro k hk
          by_cases hki : k < bisect_left a t
          · exact dist_min_left hs hki
          · exact le_of_lt (lt_of_lt_of_le hcmp
              (dist_min_right hs (by omega) hk))
        · have heq : nearest_by_time a v t md =
              if |a.getD (bisect_left a t) 0 - t| ≤ md then
                some (v.getD (bisect_left a t) 0)
              else none := by
            unfold nearest_by_time
            rw [if_neg hne]
            dsimp only
            rw [if_pos hil, if_pos hip]
            simp only [List.cons_append, List.nil_append, List.foldl_cons,
              List.foldl_nil]
            rw [if_neg hcmp]
          refine nearest_finish hil heq ?_
          intro k hk
          by_cases hki : k < bisect_left a t
          · exact le_trans (not_lt.mp hcmp) (dist_min_left hs hki)
          · exact dist_min_right hs (by omega) hk
      · -- insertion at the front: only candidate is index 0
        have heq : nearest_by_time a v t md =
            if |a.getD (bisect_left a t) 0 - t| ≤ md then
              some (v.getD (bisect_left a t) 0)
            else none := by
          unfold nearest_by_time
          rw [if_neg hne]
          dsimp only
          rw [if_pos hil, if_neg hip]
          simp only [List.append_nil, List.foldl_cons, List.foldl_nil]
        refine nearest_finish hil heq ?_
        intro k hk
        exact dist_min_right hs (by omega) hk
    · -- insertion past the end: only candidate is the last index
      have hie : bisect_left a t = a.length := by omega
      have hip : 0 < bisect_left a t := by omega
      have heq : nearest_by_time a v t md =
          if |a.getD (bisect_left a t - 1) 0 - t| ≤ md then
            some (v.getD (bisect_left a t - 1) 0)
          else none := by
        unfold nearest_by_time
        rw [if_neg hne]
        dsimp only
        rw [if_neg hil, if_pos hip]
        simp only [List.nil_append, List.foldl_cons, List.foldl_nil]
      refine nearest_finish (by omega) heq ?_
      intro k hk
      exact dist_min_left hs (by omega)

/-- Witness for C6: the nearest-lookup theorem applied to the sorted series
`[1, 2, 5]` / `[10, 20, 50]` at query `2.2`, tolerance `0.3`. -/
theorem nearest_by_time_spec_witness :
    ∃ j, j < ([1, 2, 5] : List ℚ).length ∧ (20 : ℚ) = [10, 20, 50].getD j 0 ∧
      |([1, 2, 5] : List ℚ).getD j 0 - 11 / 5| ≤ 3 / 10 ∧
      ∀ k, k < ([1, 2, 5] : List ℚ).length →
        |([1, 2, 5] : List ℚ).getD j 0 - 11 / 5| ≤
          |([1, 2, 5] : List ℚ).getD k 0 - 11 / 5| :=
  (nearest_by_time_spec.1 [1, 2, 5] [10, 20, 50] (11 / 5) (3 / 10)
    (by decide)).2 20 (by decide)

end SHT
